import Mathlib

/-!
Verification development for the two daily-report normalization scripts
(`backup_normalize_daily_reports.py` and `normalize_daily_reports.py`).

Strings are modelled as `List Char`; Python floats are modelled as exact
rationals (`Rat`), idealizing IEEE rounding away; `float("nan")`,
`float("inf")` and underscore digit separators are outside the model of
Python's `float()` literal parser.  All rational values are built with
`mkRat` over integer arithmetic so that concrete runs reduce in the kernel.

The namespace `Backup` embeds `backup_normalize_daily_reports.py`; the
namespace `Main` embeds `normalize_daily_reports.py`.  Definitions shared by
the two scripts (the synonym table, string helpers, the models of the pandas
and Python standard-library primitives they call) live at top level.
-/

/-- Whitespace characters stripped by Python's `str.strip()` (ASCII range). -/
def isPySpace (c : Char) : Bool :=
  c == ' ' || c == '\t' || c == '\n' || c == '\r' || c == '\x0b' || c == '\x0c'

/-- Model of Python `str.strip()`: drop leading whitespace. -/
def stripStart (s : List Char) : List Char := s.dropWhile isPySpace

/-- Model of Python `str.strip()`: drop trailing whitespace. -/
def stripEnd (s : List Char) : List Char := (s.reverse.dropWhile isPySpace).reverse

/-- Model of Python `str.strip()`. -/
def pyStrip (s : List Char) : List Char := stripEnd (stripStart s)

/-- The lowercase/uppercase ASCII letter pairs, as used by `str.upper()` and
`str.lower()` on the ASCII inputs this program handles. -/
def lowerUpperTable : List (Char × Char) :=
  [('a', 'A'), ('b', 'B'), ('c', 'C'), ('d', 'D'), ('e', 'E'), ('f', 'F'),
   ('g', 'G'), ('h', 'H'), ('i', 'I'), ('j', 'J'), ('k', 'K'), ('l', 'L'),
   ('m', 'M'), ('n', 'N'), ('o', 'O'), ('p', 'P'), ('q', 'Q'), ('r', 'R'),
   ('s', 'S'), ('t', 'T'), ('u', 'U'), ('v', 'V'), ('w', 'W'), ('x', 'X'),
   ('y', 'Y'), ('z', 'Z')]

/-- Uppercase one character (ASCII model of Python `str.upper()`). -/
def upChar (c : Char) : Char :=
  ((lowerUpperTable.find? (fun p => p.1 == c)).map (fun p => p.2)).getD c

/-- Lowercase one character (ASCII model of Python `str.lower()`). -/
def lowChar (c : Char) : Char :=
  ((lowerUpperTable.find? (fun p => p.2 == c)).map (fun p => p.1)).getD c

/-- Model of Python `str.upper()`. -/
def pyUpper (s : List Char) : List Char := s.map upChar

/-- Model of Python `str.lower()`. -/
def pyLower (s : List Char) : List Char := s.map lowChar

/-- Numeric value of a digit string (most significant first). -/
def digitsToNat (ds : List Char) : Nat :=
  ds.foldl (fun a c => a * 10 + (c.toNat - 48)) 0

/-- Model of Python `float(s)` on an already-stripped string: optional sign,
decimal mantissa, optional scientific exponent.  Returns `none` where
`float()` raises `ValueError`.  (The special strings accepted by `float()`
such as `"nan"`/`"inf"`, and underscore separators, are outside the model.) -/
def pyFloatCore (s : List Char) : Option Rat :=
  let sp : Int × List Char :=
    match s with
    | '+' :: t => (1, t)
    | '-' :: t => (-1, t)
    | _ => (1, s)
  let ip := sp.2.takeWhile Char.isDigit
  let r1 := sp.2.dropWhile Char.isDigit
  let fpr : List Char × List Char :=
    match r1 with
    | '.' :: t => (t.takeWhile Char.isDigit, t.dropWhile Char.isDigit)
    | _ => ([], r1)
  if ip = [] ∧ fpr.1 = [] then none
  else
    let mnum : Int := sp.1 * (digitsToNat ip * 10 ^ fpr.1.length + digitsToNat fpr.1)
    let mden : Nat := 10 ^ fpr.1.length
    match fpr.2 with
    | [] => some (mkRat mnum mden)
    | e :: t =>
      if e == 'e' || e == 'E' then
        let ep : Bool × List Char :=
          match t with
          | '+' :: u => (false, u)
          | '-' :: u => (true, u)
          | _ => (false, t)
        let eds := ep.2.takeWhile Char.isDigit
        if eds = [] ∨ ep.2.dropWhile Char.isDigit ≠ [] then none
        else if ep.1 then some (mkRat mnum (mden * 10 ^ digitsToNat eds))
        else some (mkRat (mnum * 10 ^ digitsToNat eds) mden)
      else none

/-- Model of Python `float(s)` (which tolerates surrounding whitespace). -/
def pyFloat (s : List Char) : Option Rat := pyFloatCore (pyStrip s)

/-- Division by 100 expressed through `mkRat` (kernel-computable form of
`v / 100`; see `div100_eq_div`). -/
def div100 (v : Rat) : Rat := mkRat v.num (v.den * 100)

namespace Backup

/-- The special strings `parse_number` maps to `(None, False)` up front
(`backup_normalize_daily_reports.py`, line 66). -/
def specialStrs : List (List Char) := ["nan".data, "none".data, "-".data]

/-- The locale cleanup of `parse_number`: remove non-breaking and ordinary
spaces, turn the decimal comma into a period — periods are preserved
(`backup_normalize_daily_reports.py`, line 74). -/
def cleanNum (s : List Char) : List Char :=
  (s.filter (fun c => !(c == '\u00A0' || c == ' '))).map
    (fun c => if c == ',' then '.' else c)

/-- Embeds `parse_number` of `backup_normalize_daily_reports.py`
(lines 49-85) on a string argument, which is how `normalize_file` calls it
(the `None`/NaN/int/float branches are handled by the callers in the
embedding). -/
def parse_number (x : List Char) : Option Rat × Bool :=
  let s := pyStrip x
  if s = [] ∨ pyLower s ∈ specialStrs then (none, false)
  else
    let isPct : Bool := decide (s.getLast? = some '%')
    let s2 := cleanNum (if isPct then pyStrip s.dropLast else s)
    match pyFloat s2 with
    | none => (none, isPct)
    | some v => (if isPct then some (div100 v) else some v, isPct)

/-- The face value of a percent string: the numeric parse of the text with
its trailing percent sign stripped and the locale cleanup applied. -/
def faceValue (x : List Char) : Option Rat :=
  pyFloat (cleanNum (pyStrip (pyStrip x).dropLast))

end Backup

namespace Main

/-- Embeds `parse_number` of `normalize_daily_reports.py` (lines 33-49) on a
string argument: periods are treated as thousands separators and removed,
the comma becomes the decimal point. -/
def parse_number (raw : List Char) : Option Rat × Bool :=
  let s := pyStrip raw
  let isPct : Bool := decide (s.getLast? = some '%')
  let sClean := if isPct then s.dropLast else s
  let s2 := (sClean.filter (fun c => !(c == '.'))).map
    (fun c => if c == ',' then '.' else c)
  match pyFloat s2 with
  | none => (none, isPct)
  | some v => (if isPct then some (div100 v) else some v, isPct)

end Main

/-- A calendar date.  Pandas timestamps are truncated to dates throughout the
model (`Timestamp.normalize()` is then the identity), since the program drops
all time-of-day information. -/
structure PDate where
  y : Nat
  m : Nat
  d : Nat
deriving DecidableEq

def isLeap (y : Nat) : Bool := y % 4 == 0 && (y % 100 != 0 || y % 400 == 0)

def daysInMonth (y m : Nat) : Nat :=
  if m == 2 then (if isLeap y then 29 else 28)
  else if m == 4 || m == 6 || m == 9 || m == 11 then 30
  else 31

def validDMY (y m d : Nat) : Bool :=
  decide (1 ≤ m ∧ m ≤ 12 ∧ 1 ≤ d ∧ d ≤ daysInMonth y m)

/-- Consume exactly `n` digits. -/
def takeDigits (n : Nat) (s : List Char) : Option (Nat × List Char) :=
  let ds := s.take n
  if ds.length = n ∧ ds.all Char.isDigit then some (digitsToNat ds, s.drop n)
  else none

/-- Consume one expected character. -/
def expectCh (c : Char) : List Char → Option (List Char)
  | x :: t => if x == c then some t else none
  | [] => none

/-- Consume one or two digits (the `\d{1,2}` shape of `DATE_RE`). -/
def take12Digits (s : List Char) : Option (Nat × List Char) :=
  let ds := s.takeWhile Char.isDigit
  if 1 ≤ ds.length ∧ ds.length ≤ 2 then
    some (digitsToNat ds, s.dropWhile Char.isDigit)
  else none

/-- Consume one date separator (slash or hyphen). -/
def sepCh : List Char → Option (List Char)
  | x :: t => if x == '/' || x == '-' then some t else none
  | [] => none

/-- The `YYYY-MM-DD` prefix of the `ISO_RE` pattern of
`backup_normalize_daily_reports.py` (line 36). -/
def isoShape (s : List Char) : Option (Nat × Nat × Nat × List Char) := do
  let (y, r1) ← takeDigits 4 s
  let r2 ← expectCh '-' r1
  let (m, r3) ← takeDigits 2 r2
  let r4 ← expectCh '-' r3
  let (d, r5) ← takeDigits 2 r4
  pure (y, m, d, r5)

/-- The optional `\s+\d{2}:\d{2}:\d{2}` tail of `ISO_RE`. -/
def isoTimeOk (r : List Char) : Bool :=
  match r with
  | [] => true
  | _ =>
    decide (r.takeWhile isPySpace ≠ []) &&
    (match (do
        let (_, t1) ← takeDigits 2 (r.dropWhile isPySpace)
        let t2 ← expectCh ':' t1
        let (_, t3) ← takeDigits 2 t2
        let t4 ← expectCh ':' t3
        let (_, t5) ← takeDigits 2 t4
        pure t5 : Option (List Char)) with
     | some [] => true
     | _ => false)

/-- Whether `ISO_RE` matches the string. -/
def isoMatch (s : List Char) : Bool :=
  match isoShape s with
  | some (_, _, _, r) => isoTimeOk r
  | none => false

/-- Semantic parse of an ISO-shaped string, truncated to the date.  Validity
of the time-of-day digits is outside the model. -/
def parseISODate (s : List Char) : Option PDate :=
  match isoShape s with
  | some (y, m, d, r) =>
    if isoTimeOk r ∧ validDMY y m d = true then some ⟨y, m, d⟩ else none
  | none => none

/-- A two-digit year is expanded with the pandas pivot (00-68 into the
2000s, 69-99 into the 1900s); 3- or 4-digit years are taken literally. -/
def expandYear (ds : List Char) : Option Nat :=
  if 2 ≤ ds.length ∧ ds.length ≤ 4 then
    let y := digitsToNat ds
    some (if ds.length = 2 then (if y ≤ 68 then 2000 + y else 1900 + y) else y)
  else none

/-- Semantic parse of a separated numeric date (`D/M/Y` or `D-M-Y` shapes).
With `dayfirst` the first component is preferred as the day, falling back to
month-first when that is invalid, mirroring pandas. -/
def parseSepDate (dayfirst : Bool) (s : List Char) : Option PDate :=
  match (do
    let (a, r1) ← take12Digits s
    let r2 ← sepCh r1
    let (b, r3) ← take12Digits r2
    let r4 ← sepCh r3
    if r4.dropWhile Char.isDigit ≠ [] then none
    else do
      let y ← expandYear (r4.takeWhile Char.isDigit)
      pure (a, b, y) : Option (Nat × Nat × Nat)) with
  | none => none
  | some (a, b, y) =>
    if dayfirst then
      if validDMY y b a then some ⟨y, b, a⟩
      else if validDMY y a b then some ⟨y, a, b⟩
      else none
    else
      if validDMY y a b then some ⟨y, a, b⟩
      else if validDMY y b a then some ⟨y, b, a⟩
      else none

/-- Model of `pandas.to_datetime(s, errors="coerce")` restricted to the
string shapes this repository relies on: ISO dates (parsed year-first
whatever `dayfirst` says, as pandas does) and separated numeric dates.
Other pandas-parseable spellings are outside the model and map to `none`
(pandas `NaT`). -/
def pdToDatetime (dayfirst : Bool) (s : List Char) : Option PDate :=
  let t := pyStrip s
  match parseISODate t with
  | some d => some d
  | none => parseSepDate dayfirst t

/-- An untyped spreadsheet cell as loaded with `dtype=object`: missing
(`None`/NaN), a real date value, a number (carrying its `str()` rendering),
or text. -/
inductive Cell where
  | empty
  | date (d : PDate)
  | num (v : Rat) (txt : List Char)
  | str (s : List Char)
deriving DecidableEq

/-- Zero-padded decimal rendering. -/
def padDigits (w n : Nat) : List Char :=
  let ds := Nat.toDigits 10 n
  List.replicate (w - ds.length) '0' ++ ds

/-- The `str()` rendering of a date cell (a midnight pandas `Timestamp`). -/
def renderDate (d : PDate) : List Char :=
  padDigits 4 d.y ++ '-' :: (padDigits 2 d.m ++ '-' :: (padDigits 2 d.d ++ " 00:00:00".data))

/-- Model of Python `str()` on a cell value. -/
def pyStr : Cell → List Char
  | .empty => "nan".data
  | .date d => renderDate d
  | .num _ txt => txt
  | .str s => s

/-- Cell access in a pandas row: data frames are rectangular and pad short
source rows with NaN, hence the `.empty` default. -/
def getCell (row : List Cell) (c : Nat) : Cell := row.getD c .empty

/-- The section synonym table shared by both scripts (insertion order;
lookup is first-match, which agrees with the Python dict since the keys are
distinct). -/
def SECTION_SYNONYMS : List (List Char × List Char) :=
  [("RESTAURANTE".data, "RESTAURANT".data), ("RESTAURANT".data, "RESTAURANT".data),
   ("BAR".data, "BAR".data), ("BER".data, "BAR".data),
   ("BODA".data, "BANQUETING".data), ("BENQUETING".data, "BANQUETING".data),
   ("BANQUETING".data, "BANQUETING".data),
   ("EMPRESA".data, "MICE".data), ("MICE".data, "MICE".data),
   ("PARTICULAR".data, "INDIVIDUALS".data), ("INDIVIDUALS".data, "INDIVIDUALS".data),
   ("TIENDA RESTAURANTE 43".data, "SHOP".data), ("SHOP".data, "SHOP".data),
   ("WALK IN".data, "WALKIN".data), ("WALKIN".data, "WALKIN".data),
   ("INTERNO".data, "EMPLOYEES".data), ("EMPLEADOS".data, "EMPLOYEES".data),
   ("Empleados".data, "EMPLOYEES".data)]

/-- Dictionary lookup in the synonym table. -/
def lookupSyn (u : List Char) : Option (List Char) :=
  (SECTION_SYNONYMS.find? (fun kv => kv.1 == u)).map (fun kv => kv.2)

/-- The `DATE_RE` pattern (one or two digits, separator, one or two digits,
separator, two to four digits, surrounded by optional whitespace) defined in
both scripts (used by `is_date_like` of `normalize_daily_reports.py`). -/
def dateReMatch (s : List Char) : Bool :=
  match (do
    let (_, r1) ← take12Digits (s.dropWhile isPySpace)
    let r2 ← sepCh r1
    let (_, r3) ← take12Digits r2
    let r4 ← sepCh r3
    let yds := r4.takeWhile Char.isDigit
    if 2 ≤ yds.length ∧ yds.length ≤ 4 ∧ (r4.dropWhile Char.isDigit).all isPySpace
    then some () else none : Option Unit) with
  | some _ => true
  | none => false

/-- First column index `c` with `lo ≤ c < lo + n` satisfying `p`, scanning
upward — the `for c in range(lo, hi)` / `break` loop shape. -/
def scanCols (p : Nat → Bool) : Nat → Nat → Option Nat
  | _, 0 => none
  | lo, n + 1 => if p lo then some lo else scanCols p (lo + 1) n

/-- Python `min` over a nonempty list (0 as an unreachable default). -/
def pyMin : List Nat → Nat
  | [] => 0
  | a :: t => t.foldl Nat.min a

/-- Python `max` over a nonempty list (0 as an unreachable default). -/
def pyMax : List Nat → Nat
  | [] => 0
  | a :: t => t.foldl Nat.max a

namespace Backup

/-- Embeds `is_date_like` of `backup_normalize_daily_reports.py`
(lines 24-34): real date values pass outright; otherwise the string form
must parse with day-first preference to a year in [1900, 2100]. -/
def is_date_like (x : Cell) : Bool :=
  match x with
  | .empty => false
  | .date _ => true
  | w =>
    let s := pyStrip (pyStr w)
    if s = [] then false
    else
      match pdToDatetime true s with
      | some d => decide (1900 ≤ d.y ∧ d.y ≤ 2100)
      | none => false

/-- Embeds `parse_date` of `backup_normalize_daily_reports.py`
(lines 38-46): ISO strings are parsed year-first, everything else with
day-first preference. -/
def parse_date (x : Cell) : Option PDate :=
  let s := pyStrip (pyStr x)
  if s = [] then none
  else if isoMatch s then pdToDatetime false s
  else pdToDatetime true s

/-- The date-like column indices of a row
(`[c for c, v in enumerate(row) if is_date_like(v)]`). -/
def dateCols (row : List Cell) : List Nat :=
  (List.range row.length).filter (fun c => is_date_like (getCell row c))

/-- The TOTAL-cell test of `find_date_header_row` (line 100): a string cell
whose stripped upper-cased text is `"TOTAL"` (the `"TOTAL "` alternative in
the source set is unreachable, see `isTotalCell_eq_isTotalText`). -/
def isTotalCell (v : Cell) : Bool :=
  match v with
  | .str s => pyUpper (pyStrip s) == "TOTAL".data || pyUpper (pyStrip s) == "TOTAL ".data
  | _ => false

/-- The scan for the TOTAL column (`for c in range(max+1, len(row))`). -/
def scanTotal (row : List Cell) (lo : Nat) : Option Nat :=
  scanCols (fun c => isTotalCell (getCell row c)) lo (row.length - lo)

/-- Embeds `find_date_header_row` of `backup_normalize_daily_reports.py`
(lines 87-106): first row with at least 3 date-like cells, its min and max
date-like column, and the first TOTAL cell to the right (the `-1` sentinels
of the source are modelled as `none`). -/
def find_date_header_row : List (List Cell) → Option (Nat × Nat × Nat × Option Nat)
  | [] => none
  | row :: rest =>
    if 3 ≤ (dateCols row).length then
      some (0, pyMin (dateCols row), pyMax (dateCols row),
        scanTotal row (pyMax (dateCols row) + 1))
    else (find_date_header_row rest).map (fun x => (x.1 + 1, x.2))

end Backup

namespace Main

/-- Embeds `is_date_like` of `normalize_daily_reports.py` (lines 21-25):
a pure regex test of the stripped string form against `DATE_RE`. -/
def is_date_like (x : Cell) : Bool :=
  match x with
  | .empty => false
  | w => dateReMatch (pyStrip (pyStr w))

/-- The date-like column indices of a row (regex variant). -/
def dateCols (row : List Cell) : List Nat :=
  (List.range row.length).filter (fun c => is_date_like (getCell row c))

/-- The TOTAL-cell test of `find_date_header_row` (line 62): exact match
against `"TOTAL"` after strip and upper. -/
def isTotalCell (v : Cell) : Bool :=
  match v with
  | .str s => pyUpper (pyStrip s) == "TOTAL".data
  | _ => false

/-- The scan for the TOTAL column. -/
def scanTotal (row : List Cell) (lo : Nat) : Option Nat :=
  scanCols (fun c => isTotalCell (getCell row c)) lo (row.length - lo)

/-- Embeds `find_date_header_row` of `normalize_daily_reports.py`
(lines 51-69): threshold 5 instead of 3, regex date detection. -/
def find_date_header_row : List (List Cell) → Option (Nat × Nat × Nat × Option Nat)
  | [] => none
  | row :: rest =>
    if 5 ≤ (dateCols row).length then
      some (0, pyMin (dateCols row), pyMax (dateCols row),
        scanTotal row (pyMax (dateCols row) + 1))
    else (find_date_header_row rest).map (fun x => (x.1 + 1, x.2))

end Main

/-- The error conditions raised by `normalize_file` (unsupported extension,
`RuntimeError` when no date header row is found). -/
inductive PyError where
  | unsupportedFormat
  | headerNotFound
deriving DecidableEq

/-- The extension dispatch at the top of `normalize_file` (identical in both
scripts): Excel extensions and `.csv` are read, anything else raises. -/
def supportedSuffix (suffix : List Char) : Bool :=
  [".xlsx".data, ".xlsm".data, ".xls".data].contains (pyLower suffix) ||
    pyLower suffix == ".csv".data

namespace Backup

/-- One output record of `normalize_file` (the dict literal at lines
175-184 and 192-201).  The Python key `section` is spelled `sect` here
because `section` is a Lean keyword. -/
structure Record where
  source_file : List Char
  sect : Option (List Char)
  metric_label : Option (List Char)
  date : Option PDate
  value_raw : List Char
  value_num : Option Rat
  is_percent : Bool
  is_total : Bool
deriving DecidableEq

/-- The label scan of `normalize_file` (lines 143-147): walk the columns
left of the first date column and keep the stripped text of the last
non-empty string cell. -/
def rowLabel (firstC : Nat) (row : List Cell) : Option (List Char) :=
  (List.range firstC).foldl
    (fun acc c =>
      match getCell row c with
      | .str v => if pyStrip v = [] then acc else some (pyStrip v)
      | _ => acc)
    none

/-- The section update of `normalize_file` (lines 150-153): when the
upper-cased label is a known synonym the current section becomes its
canonical value, otherwise it is left unchanged. -/
def sectionAfter (firstC : Nat) (sec : Option (List Char)) (row : List Cell) :
    Option (List Char) :=
  match rowLabel firstC row with
  | none => sec
  | some lab =>
    match lookupSyn (pyUpper lab) with
    | some canon => some canon
    | none => sec

/-- The metric label of a row (lines 157-160): the label, when present and
not a known section synonym. -/
def metricOf (firstC : Nat) (row : List Cell) : Option (List Char) :=
  match rowLabel firstC row with
  | none => none
  | some lab => if lookupSyn (pyUpper lab) = none then some lab else none

/-- The per-date-cell emission of `normalize_file` (lines 163-184): skip
missing cells, blank strings and date-like values; otherwise parse the
number and emit one dated record. -/
def emitCell (fname : List Char) (sec metric : Option (List Char)) (d : PDate)
    (v : Cell) : List Record :=
  match v with
  | .empty => []
  | w =>
    let s := pyStrip (pyStr w)
    if s = [] then []
    else if is_date_like w then []
    else
      let p := parse_number s
      [{ source_file := fname, sect := sec, metric_label := metric, date := some d,
         value_raw := s, value_num := p.1, is_percent := p.2, is_total := false }]

/-- The TOTAL emission of `normalize_file` (lines 186-201): when a totals
column exists, is in range and its cell is non-empty, emit one dateless
total record. -/
def totPart (fname : List Char) (sec metric : Option (List Char))
    (totalC : Option Nat) (row : List Cell) : List Record :=
  match totalC with
  | none => []
  | some t =>
    if t < row.length then
      match getCell row t with
      | .empty => []
      | w =>
        let s := pyStrip (pyStr w)
        if s = [] then []
        else
          let p := parse_number s
          [{ source_file := fname, sect := sec, metric_label := metric, date := none,
             value_raw := s, value_num := p.1, is_percent := p.2, is_total := true }]
    else []

/-- Processing of one row below the header (lines 139-201): returns the
updated current section and the records the row emits. -/
def processRow (fname : List Char) (firstC : Nat) (c2d : List (Nat × PDate))
    (totalC : Option Nat) (sec : Option (List Char)) (row : List Cell) :
    Option (List Char) × List Record :=
  let secNew := sectionAfter firstC sec row
  let metric := metricOf firstC row
  (secNew,
    c2d.flatMap (fun cd => emitCell fname secNew metric cd.2 (getCell row cd.1)) ++
      totPart fname secNew metric totalC row)

/-- The row loop of `normalize_file`: the current section is threaded
through the rows as an accumulator. -/
def processRows (fname : List Char) (firstC : Nat) (c2d : List (Nat × PDate))
    (totalC : Option Nat) : Option (List Char) → List (List Cell) → List Record
  | _, [] => []
  | sec, row :: rest =>
    (processRow fname firstC c2d totalC sec row).2 ++
      processRows fname firstC c2d totalC (processRow fname firstC c2d totalC sec row).1 rest

/-- The column-to-date map of `normalize_file` (lines 129-133): header cells
between the first and last date column that parse to a date, in column
order.  `d.normalize()` is the identity since `PDate` carries no time. -/
def buildCol2Date (hdr : List Cell) (firstC lastC : Nat) : List (Nat × PDate) :=
  (List.range' firstC (lastC + 1 - firstC)).filterMap
    (fun c => (parse_date (getCell hdr c)).map (fun d => (c, d)))

/-- Embeds `normalize_file` of `backup_normalize_daily_reports.py`
(lines 109-207).  The loader is I/O and is modelled by taking the loaded
grid as the argument; the result is the record list the function builds
(its final reindex keeps all eight record fields, in order). -/
def normalize_file (fname suffix : List Char) (grid : List (List Cell)) :
    Except PyError (List Record) :=
  if supportedSuffix suffix then
    match find_date_header_row grid with
    | none => .error .headerNotFound
    | some (r, f, l, t) =>
      .ok (processRows fname f (buildCol2Date (grid.getD r []) f l) t none
        (grid.drop (r + 1)))
  else .error .unsupportedFormat

end Backup

/-- A cell value inside a data frame. -/
inductive PVal where
  | vstr (s : List Char)
  | vnum (q : Rat)
  | vdate (d : PDate)
  | vbool (b : Bool)
  | vnull
deriving DecidableEq

/-- A pandas data frame: named columns and rows aligned to them. -/
structure DF where
  cols : List (List Char)
  rows : List (List PVal)
deriving DecidableEq

/-- The canonical output column order (line 205 and line 227 of the backup
script, line 109 of the other). -/
def recordCols : List (List Char) :=
  ["source_file".data, "section".data, "metric_label".data, "date".data,
   "value_raw".data, "value_num".data, "is_percent".data, "is_total".data]

def optStrVal : Option (List Char) → PVal
  | some s => .vstr s
  | none => .vnull

def optDateVal : Option PDate → PVal
  | some d => .vdate d
  | none => .vnull

def optNumVal : Option Rat → PVal
  | some q => .vnum q
  | none => .vnull

/-- A record as a data-frame row, fields in dict insertion order. -/
def recordToRow (rec : Backup.Record) : List PVal :=
  [.vstr rec.source_file, optStrVal rec.sect, optStrVal rec.metric_label,
   optDateVal rec.date, .vstr rec.value_raw, optNumVal rec.value_num,
   .vbool rec.is_percent, .vbool rec.is_total]

/-- Model of `pd.DataFrame.from_records`: an empty record list yields a
frame with no columns at all. -/
def dfOfRecords (recs : List Backup.Record) : DF :=
  ⟨if recs.isEmpty then [] else recordCols, recs.map recordToRow⟩

/-- Model of `DataFrame.reindex(columns=cols)`: keep the named columns in
the given order, filling missing columns with nulls. -/
def reindexDF (cols : List (List Char)) (df : DF) : DF :=
  ⟨cols, df.rows.map (fun row =>
    cols.map (fun c =>
      match df.cols.indexOf? c with
      | some i => row.getD i .vnull
      | none => .vnull))⟩

/-- Model of `pd.concat` over frames that share one column set (the only
shape this program produces): stack the rows. -/
def concatDF (dfs : List DF) : DF :=
  ⟨((dfs.head?).map DF.cols).getD [], (dfs.map DF.rows).flatten⟩

namespace Backup

/-- The aggregation of `main` (lines 217-228): run `normalize_file` on each
file (each file's output reindexed as at lines 203-206), then
`pd.concat(frames, ignore_index=True) if frames else pd.DataFrame()`,
then the final reindex to the canonical columns. -/
def mainMaster (frames : List (List Record)) : DF :=
  let m : DF :=
    if frames.isEmpty then ⟨[], []⟩
    else concatDF (frames.map (fun recs => reindexDF recordCols (dfOfRecords recs)))
  reindexDF recordCols m

/-- The per-file loop plus aggregation of `main` (an exception from any
file aborts the batch, as in the source). -/
def mainRun (files : List (List Char × List Char × List (List Cell))) :
    Except PyError DF := do
  let frames ← files.mapM (fun f => normalize_file f.1 f.2.1 f.2.2)
  pure (mainMaster frames)

end Backup

namespace Main

/-- Embeds `normalize_file` of `normalize_daily_reports.py` (lines 73-94):
after the format dispatch and the header check the function body is only
comments, so Python returns `None` — modelled as `Option DF` with value
`none`. -/
def normalize_file (fname suffix : List Char) (grid : List (List Cell)) :
    Except PyError (Option DF) :=
  if supportedSuffix suffix then
    match find_date_header_row grid with
    | none => .error .headerNotFound
    | some _ => .ok none
  else .error .unsupportedFormat

/-- The per-file loop of `main` in `normalize_daily_reports.py`
(lines 103-106): collect each file's `normalize_file` result. -/
def pipelineFrames (files : List (List Char × List Char × List (List Cell))) :
    Except PyError (List (Option DF)) :=
  files.mapM (fun f => normalize_file f.1 f.2.1 f.2.2)

end Main

namespace Backup

/-- The emission guard of the daily loop (lines 164-172), as one predicate:
a cell yields a record exactly when it is present, its stripped text is
non-blank, and it is not itself date-like. -/
def holdsValue (v : Cell) : Bool :=
  match v with
  | .empty => false
  | w => if pyStrip (pyStr w) = [] then false else !is_date_like w

/-- The TOTAL-cell emission guard (line 189): present with non-blank
stripped text (date-likeness is not checked there). -/
def totNonEmpty (v : Cell) : Bool :=
  match v with
  | .empty => false
  | w => decide (pyStrip (pyStr w) ≠ [])

/-- The canonical section value a row's label resolves to, when it is a
known synonym. -/
def labelSyn (firstC : Nat) (row : List Cell) : Option (List Char) :=
  (rowLabel firstC row).bind (fun lab => lookupSyn (pyUpper lab))

end Backup

/-- The claim-side TOTAL test: a string cell whose text, trimmed and
upper-cased, equals `"TOTAL"`. -/
def totalTextCell (v : Cell) : Bool :=
  match v with
  | .str s => pyUpper (pyStrip s) == "TOTAL".data
  | _ => false

/-- The claim-side label rule of C7, following the spec overview's words:
the stripped text of the left-most non-empty cell among the columns to the
left of the date span. -/
def specLeftmostLabel (firstC : Nat) (row : List Cell) : Option (List Char) :=
  ((List.range firstC).find?
    (fun c => !(getCell row c == Cell.empty) && !(pyStrip (pyStr (getCell row c)) == []))).map
    (fun c => pyStrip (pyStr (getCell row c)))

/-- Concrete grid exercising the header locator: a non-header first row,
then a header row with three date cells and a trailing total marker. -/
def gC1 : List (List Cell) :=
  [[Cell.str "x".data],
   [Cell.str "Fecha".data, Cell.date ⟨2025, 1, 1⟩, Cell.date ⟨2025, 1, 2⟩,
    Cell.date ⟨2025, 1, 3⟩, Cell.str " total ".data]]

/-- Concrete header row for the column-to-date map. -/
def hdrC9 : List Cell :=
  [Cell.str "Fecha".data, Cell.date ⟨2025, 1, 1⟩, Cell.str "oops".data,
   Cell.date ⟨2025, 1, 3⟩]

/-- Concrete single-row grid with five regex-date cells (a header for the
regex variant). -/
def gridC10 : List (List Cell) :=
  [[Cell.str "1/1/25".data, Cell.str "2/1/25".data, Cell.str "3/1/25".data,
    Cell.str "4/1/25".data, Cell.str "5/1/25".data]]

/-- Concrete data row: a metric label, a number, a gap, a number. -/
def rowC2 : List Cell :=
  [Cell.str "COMIDA".data, Cell.num 10 "10".data, Cell.empty, Cell.str "7".data]

/-- Concrete column-to-date map over columns 1 and 2. -/
def c2dC2 : List (Nat × PDate) := [(1, ⟨2025, 1, 1⟩), (2, ⟨2025, 1, 2⟩)]

/-- Concrete data row with a non-empty cell in the totals column (index 3). -/
def rowC6 : List Cell :=
  [Cell.str "COMIDA".data, Cell.num 10 "10".data, Cell.empty, Cell.str "7".data]

/-- Concrete column-to-date map used with `rowC6`. -/
def c2dC6 : List (Nat × PDate) := [(1, ⟨2025, 1, 1⟩), (2, ⟨2025, 1, 2⟩)]

/-- Concrete section-title row (the spec's worked example). -/
def rowTitleC5 : List Cell := [Cell.str "RESTAURANT".data]

/-- Concrete metric data row following the title row. -/
def rowDataC5 : List Cell := [Cell.str "COMIDA".data, Cell.num 10 "10".data]

/-- Concrete row with two non-empty string labels left of the date span. -/
def rowC7 : List Cell := [Cell.str "A".data, Cell.str "B".data, Cell.str "5".data]

/-- The amended label rule of C7: `lab` is the stripped text of the last
(right-most) non-blank string cell among the columns left of the date span,
every later such column holding no non-blank string. -/
def lastLabelSpec (firstC : Nat) (row : List Cell) (lab : List Char) : Prop :=
  ∃ c, c < firstC ∧ (∃ v, getCell row c = Cell.str v ∧ pyStrip v = lab) ∧ lab ≠ [] ∧
    ∀ j, c < j → j < firstC → ∀ w, getCell row j = Cell.str w → pyStrip w = []

theorem div100_eq_div (v : Rat) : div100 v = v / 100 := by
  rw [div100, Rat.mkRat_eq_div]
  push_cast
  rw [← div_div]
  rw [Rat.num_div_den]

theorem head?_dropWhile_not (p : Char → Bool) (l : List Char) (c : Char)
    (h : (l.dropWhile p).head? = some c) : p c = false := by
  induction l with
  | nil => simp [List.dropWhile] at h
  | cons a t ih =>
    rw [List.dropWhile_cons] at h
    cases hp : p a with
    | true => rw [hp] at h; simp at h; exact ih h
    | false => rw [hp] at h; simp at h; rw [← h]; exact hp

theorem getLast?_dropWhile_of (p : Char → Bool) (l : List Char) (c : Char)
    (h : l.getLast? = some c) (hc : p c = false) :
    (l.dropWhile p).getLast? = some c := by
  induction l with
  | nil => simp at h
  | cons a t ih =>
    cases t with
    | nil =>
      simp at h
      subst h
      simp [List.dropWhile_cons, hc]
    | cons b t2 =>
      have h' : (b :: t2).getLast? = some c := by
        rw [← List.getLast?_cons_cons (a := a)]; exact h
      rw [List.dropWhile_cons]
      cases hp : p a with
      | true => simp only [if_pos rfl]; exact ih h'
      | false => simp only [Bool.false_eq_true, if_neg, ite_false]; rw [List.getLast?_cons_cons]; exact h'

theorem stripEnd_getLast?_not_space (l : List Char) (c : Char)
    (h : (stripEnd l).getLast? = some c) : isPySpace c = false := by
  rw [stripEnd, List.getLast?_reverse] at h
  exact head?_dropWhile_not _ _ _ h

theorem pyStrip_getLast?_not_space (s : List Char) (c : Char)
    (h : (pyStrip s).getLast? = some c) : isPySpace c = false :=
  stripEnd_getLast?_not_space _ _ h

theorem stripEnd_of_getLast? (l : List Char) (c : Char)
    (h : l.getLast? = some c) (hc : isPySpace c = false) : stripEnd l = l := by
  rw [stripEnd]
  have hh : l.reverse.head? = some c := by rw [List.head?_reverse]; exact h
  cases hr : l.reverse with
  | nil => rw [hr] at hh; simp at hh
  | cons a t =>
    rw [hr] at hh
    simp at hh
    subst hh
    rw [List.dropWhile_cons]
    simp only [hc, Bool.false_eq_true, ite_false]
    rw [← hr, List.reverse_reverse]

theorem pyStrip_getLast? (s : List Char) (c : Char)
    (h : s.getLast? = some c) (hc : isPySpace c = false) :
    (pyStrip s).getLast? = some c := by
  rw [pyStrip]
  have h1 : (stripStart s).getLast? = some c := getLast?_dropWhile_of _ _ _ h hc
  rw [stripEnd_of_getLast? _ _ h1 hc]
  exact h1

theorem pyStrip_ne_nil_of_getLast? (s : List Char) (c : Char)
    (h : s.getLast? = some c) (hc : isPySpace c = false) : pyStrip s ≠ [] := by
  intro h0
  have h1 := pyStrip_getLast? s c h hc
  rw [h0] at h1
  simp at h1

theorem upChar_eq_space (c : Char) (h : upChar c = ' ') : c = ' ' := by
  rw [upChar] at h
  cases hf : lowerUpperTable.find? (fun p => p.1 == c) with
  | none => rw [hf] at h; simpa using h
  | some pr =>
    rw [hf] at h
    simp at h
    have hm := List.mem_of_find?_eq_some hf
    have hno : ∀ q ∈ lowerUpperTable, ¬(q.2 = ' ') := by decide
    exact absurd h (hno pr hm)

theorem pyUpper_ne_totalSpace (s : List Char) : pyUpper (pyStrip s) ≠ "TOTAL ".data := by
  intro h
  have hl : (pyUpper (pyStrip s)).getLast? = some ' ' := by rw [h]; rfl
  rw [pyUpper, List.getLast?_map] at hl
  rcases Option.map_eq_some'.mp hl with ⟨c, hc1, hc2⟩
  have hns := pyStrip_getLast?_not_space s c hc1
  rw [upChar_eq_space c hc2] at hns
  simp [isPySpace] at hns

theorem isTotalCell_eq_totalTextCell (v : Cell) :
    Backup.isTotalCell v = totalTextCell v := by
  cases v with
  | empty => rfl
  | date d => rfl
  | num q txt => rfl
  | str s =>
    simp only [Backup.isTotalCell, totalTextCell]
    cases h : (pyUpper (pyStrip s) == "TOTAL".data) with
    | true => simp
    | false =>
      simp only [Bool.false_or]
      simpa using pyUpper_ne_totalSpace s

/-- C3: for every input string ending in a percent sign, `parse_number` of
the backup script reports `is_percent = true`, strips the sign before
numeric parsing, and returns the face value divided by 100 — or `none`
together with the flag when the remainder fails to parse as a float,
rather than raising. -/
theorem C3_parse_number_percent (s : List Char) (h : s.getLast? = some '%') :
    Backup.parse_number s = ((Backup.faceValue s).map (fun v => v / 100), true) := by
  have hsp : isPySpace '%' = false := by decide
  have h1 : (pyStrip s).getLast? = some '%' := pyStrip_getLast? s '%' h hsp
  have hne : pyStrip s ≠ [] := pyStrip_ne_nil_of_getLast? s '%' h hsp
  have hlowlast : (pyLower (pyStrip s)).getLast? = some '%' := by
    rw [pyLower, List.getLast?_map, h1]; rfl
  have hmem : pyLower (pyStrip s) ∉ Backup.specialStrs := by
    intro hm
    have hm' : pyLower (pyStrip s) = "nan".data ∨ pyLower (pyStrip s) = "none".data ∨
        pyLower (pyStrip s) = "-".data := by simpa [Backup.specialStrs] using hm
    rcases hm' with h2 | h2 | h2 <;> rw [h2] at hlowlast <;> exact absurd hlowlast (by decide)
  simp only [Backup.parse_number]
  rw [if_neg (not_or.mpr ⟨hne, hmem⟩)]
  rw [decide_eq_true h1]
  simp only [if_true]
  cases hf : pyFloat (Backup.cleanNum (pyStrip (pyStrip s).dropLast)) with
  | none => simp [hf, Backup.faceValue]
  | some v => simp [hf, Backup.faceValue, div100_eq_div]

theorem C3_parse_number_percent_witness :
    Backup.parse_number "139%".data
      = ((Backup.faceValue "139%".data).map (fun v => v / 100), true) :=
  C3_parse_number_percent "139%".data (by decide)

/-- C4: the two scripts' `parse_number` functions implement incompatible
locale policies; on `"1.234,56"` the backup (period-preserving) variant
fails to parse while the other (period-stripping) variant returns 1234.56,
so their results differ. -/
theorem C4_locale_policies_diverge :
    Backup.parse_number "1.234,56".data = (none, false) ∧
    Main.parse_number "1.234,56".data = (some ((123456 : Rat) / 100), false) ∧
    Backup.parse_number "1.234,56".data ≠ Main.parse_number "1.234,56".data := by
  have hq : ((123456 : Rat) / 100) = mkRat 123456 100 := by
    rw [Rat.mkRat_eq_div]; norm_num
  refine ⟨by decide, ?_, by decide⟩
  rw [hq]; decide

theorem foldl_min_le_init (t : List Nat) (a : Nat) : t.foldl Nat.min a ≤ a := by
  induction t generalizing a with
  | nil => exact Nat.le_refl a
  | cons b t ih => exact Nat.le_trans (ih (Nat.min a b)) (Nat.min_le_left a b)

theorem foldl_min_le_mem (t : List Nat) (x : Nat) (hx : x ∈ t) :
    ∀ a, t.foldl Nat.min a ≤ x := by
  induction t with
  | nil => simp at hx
  | cons b t ih =>
    intro a
    rcases List.mem_cons.mp hx with rfl | hx2
    · exact Nat.le_trans (foldl_min_le_init t (Nat.min a x)) (Nat.min_le_right a x)
    · exact ih hx2 (Nat.min a b)

theorem foldl_min_mem (t : List Nat) : ∀ a, t.foldl Nat.min a = a ∨ t.foldl Nat.min a ∈ t := by
  induction t with
  | nil => intro a; left; rfl
  | cons b t ih =>
    intro a
    rw [List.foldl_cons]
    rcases ih (Nat.min a b) with h | h
    · rw [h]
      rcases Nat.le_total a b with hab | hba
      · left; exact Nat.min_eq_left hab
      · right
        have hh : Nat.min a b = b := Nat.min_eq_right hba
        rw [hh]; exact List.mem_cons_self b t
    · right; exact List.mem_cons_of_mem b h

theorem pyMin_spec (l : List Nat) (hl : l ≠ []) :
    pyMin l ∈ l ∧ ∀ x ∈ l, pyMin l ≤ x := by
  cases l with
  | nil => exact absurd rfl hl
  | cons a t =>
    constructor
    · rcases foldl_min_mem t a with h | h
      · rw [pyMin, h]; exact List.mem_cons_self a t
      · rw [pyMin]; exact List.mem_cons_of_mem a h
    · intro x hx
      rcases List.mem_cons.mp hx with rfl | hx2
      · exact foldl_min_le_init t x
      · exact foldl_min_le_mem t x hx2 a

theorem foldl_max_init_le (t : List Nat) (a : Nat) : a ≤ t.foldl Nat.max a := by
  induction t generalizing a with
  | nil => exact Nat.le_refl a
  | cons b t ih => exact Nat.le_trans (Nat.le_max_left a b) (ih (Nat.max a b))

theorem foldl_max_mem_le (t : List Nat) (x : Nat) (hx : x ∈ t) :
    ∀ a, x ≤ t.foldl Nat.max a := by
  induction t with
  | nil => simp at hx
  | cons b t ih =>
    intro a
    rcases List.mem_cons.mp hx with rfl | hx2
    · exact Nat.le_trans (Nat.le_max_right a x) (foldl_max_init_le t (Nat.max a x))
    · exact ih hx2 (Nat.max a b)

theorem foldl_max_mem (t : List Nat) : ∀ a, t.foldl Nat.max a = a ∨ t.foldl Nat.max a ∈ t := by
  induction t with
  | nil => intro a; left; rfl
  | cons b t ih =>
    intro a
    rw [List.foldl_cons]
    rcases ih (Nat.max a b) with h | h
    · rw [h]
      rcases Nat.le_total a b with hab | hba
      · right
        have hh : Nat.max a b = b := Nat.max_eq_right hab
        rw [hh]; exact List.mem_cons_self b t
      · left; exact Nat.max_eq_left hba
    · right; exact List.mem_cons_of_mem b h

theorem pyMax_spec (l : List Nat) (hl : l ≠ []) :
    pyMax l ∈ l ∧ ∀ x ∈ l, x ≤ pyMax l := by
  cases l with
  | nil => exact absurd rfl hl
  | cons a t =>
    constructor
    · rcases foldl_max_mem t a with h | h
      · rw [pyMax, h]; exact List.mem_cons_self a t
      · rw [pyMax]; exact List.mem_cons_of_mem a h
    · intro x hx
      rcases List.mem_cons.mp hx with rfl | hx2
      · exact foldl_max_init_le t x
      · exact foldl_max_mem_le t x hx2 a

theorem scanCols_some (p : Nat → Bool) :
    ∀ n lo k, scanCols p lo n = some k →
      lo ≤ k ∧ k < lo + n ∧ p k = true ∧ ∀ j, lo ≤ j → j < k → p j = false := by
  intro n
  induction n with
  | zero => intro lo k h; simp [scanCols] at h
  | succ n ih =>
    intro lo k h
    simp only [scanCols] at h
    by_cases hp : p lo = true
    · rw [if_pos hp] at h
      have hk : lo = k := by simpa using h
      subst hk
      refine ⟨Nat.le_refl _, by omega, hp, ?_⟩
      intro j h1 h2
      omega
    · rw [if_neg hp] at h
      rcases ih (lo + 1) k h with ⟨h1, h2, h3, h4⟩
      refine ⟨by omega, by omega, h3, ?_⟩
      intro j hj1 hj2
      rcases Nat.eq_or_lt_of_le hj1 with rfl | hlt
      · simpa using hp
      · exact h4 j hlt hj2

theorem scanCols_none (p : Nat → Bool) :
    ∀ n lo, scanCols p lo n = none → ∀ j, lo ≤ j → j < lo + n → p j = false := by
  intro n
  induction n with
  | zero => intro lo _ j h1 h2; omega
  | succ n ih =>
    intro lo h j hj1 hj2
    simp only [scanCols] at h
    by_cases hp : p lo = true
    · rw [if_pos hp] at h; simp at h
    · rw [if_neg hp] at h
      rcases Nat.eq_or_lt_of_le hj1 with rfl | hlt
      · simpa using hp
      · exact ih (lo + 1) h j hlt (by omega)

/-- C1: the header locator returns the first row, scanning from the top,
with at least the threshold (3) of date-like cells, together with the
minimum and maximum column index among that row's date-like cells, and the
index of the first cell strictly to the right of the date span whose text,
trimmed and upper-cased, equals `"TOTAL"` — `none` (modelling the `-1`
sentinel) when no such cell exists. -/
theorem C1_header_locator (g : List (List Cell)) (r f l : Nat) (t : Option Nat)
    (h : Backup.find_date_header_row g = some (r, f, l, t)) :
    3 ≤ (Backup.dateCols (g.getD r [])).length ∧
    (∀ r' < r, (Backup.dateCols (g.getD r' [])).length < 3) ∧
    f ∈ Backup.dateCols (g.getD r []) ∧
    (∀ c ∈ Backup.dateCols (g.getD r []), f ≤ c) ∧
    l ∈ Backup.dateCols (g.getD r []) ∧
    (∀ c ∈ Backup.dateCols (g.getD r []), c ≤ l) ∧
    (∀ k, t = some k →
      l < k ∧ k < (g.getD r []).length ∧
        totalTextCell (getCell (g.getD r []) k) = true ∧
        ∀ j, l < j → j < k → totalTextCell (getCell (g.getD r []) j) = false) ∧
    (t = none →
      ∀ j, l < j → j < (g.getD r []).length →
        totalTextCell (getCell (g.getD r []) j) = false) := by
  induction g generalizing r with
  | nil => simp [Backup.find_date_header_row] at h
  | cons row rest ih =>
    simp only [Backup.find_date_header_row] at h
    by_cases h3 : 3 ≤ (Backup.dateCols row).length
    · rw [if_pos h3] at h
      simp only [Option.some.injEq, Prod.mk.injEq] at h
      obtain ⟨h0, hf, hl, ht⟩ := h
      subst h0
      subst hf
      subst hl
      subst ht
      simp only [List.getD_cons_zero]
      have hne : Backup.dateCols row ≠ [] := by
        intro h0
        rw [h0] at h3
        simp at h3
      obtain ⟨hminmem, hminle⟩ := pyMin_spec _ hne
      obtain ⟨hmaxmem, hmaxle⟩ := pyMax_spec _ hne
      refine ⟨h3, ?_, hminmem, hminle, hmaxmem, hmaxle, ?_, ?_⟩
      · intro r' hr'
        exact absurd hr' (Nat.not_lt_zero r')
      · intro k hk
        rw [Backup.scanTotal] at hk
        rcases scanCols_some _ _ _ _ hk with ⟨ha, hb, hc, hd⟩
        refine ⟨by omega, by omega, ?_, ?_⟩
        · rw [← isTotalCell_eq_totalTextCell]
          exact hc
        · intro j hj1 hj2
          rw [← isTotalCell_eq_totalTextCell]
          exact hd j (by omega) hj2
      · intro hn j hj1 hj2
        rw [Backup.scanTotal] at hn
        rw [← isTotalCell_eq_totalTextCell]
        exact scanCols_none _ _ _ hn j (by omega) (by omega)
    · rw [if_neg h3] at h
      rcases Option.map_eq_some'.mp h with ⟨x, hx, hmap⟩
      obtain ⟨r0, f0, l0, t0⟩ := x
      simp only [Prod.mk.injEq] at hmap
      obtain ⟨hr, hf, hl, ht⟩ := hmap
      subst hr
      subst hf
      subst hl
      subst ht
      obtain ⟨A, B, C, D, E, F, G, H⟩ := ih r0 hx
      simp only [List.getD_cons_succ]
      refine ⟨A, ?_, C, D, E, F, G, H⟩
      intro r' hr'
      cases r' with
      | zero =>
        simp only [List.getD_cons_zero]
        omega
      | succ r'' =>
        simp only [List.getD_cons_succ]
        exact B r'' (by omega)

theorem C1_header_locator_witness :
    3 ≤ (Backup.dateCols (gC1.getD 1 [])).length ∧
    1 ∈ Backup.dateCols (gC1.getD 1 []) ∧
    3 ∈ Backup.dateCols (gC1.getD 1 []) ∧
    totalTextCell (getCell (gC1.getD 1 []) 4) = true := by
  have h := C1_header_locator gC1 1 1 3 (some 4) (by decide)
  exact ⟨h.1, h.2.2.1, h.2.2.2.2.1, (h.2.2.2.2.2.2.1 4 rfl).2.2.1⟩

theorem emitCell_eq (fname : List Char) (sec metric : Option (List Char)) (d : PDate)
    (v : Cell) :
    Backup.emitCell fname sec metric d v =
      if Backup.holdsValue v then
        [{ source_file := fname, sect := sec, metric_label := metric, date := some d,
           value_raw := pyStrip (pyStr v),
           value_num := (Backup.parse_number (pyStrip (pyStr v))).1,
           is_percent := (Backup.parse_number (pyStrip (pyStr v))).2,
           is_total := false }]
      else [] := by
  cases v with
  | empty => rfl
  | date dd =>
    simp only [Backup.emitCell, Backup.holdsValue]
    by_cases hs : pyStrip (pyStr (Cell.date dd)) = []
    · simp [hs]
    · by_cases hd : Backup.is_date_like (Cell.date dd) = true
      · simp [hs, hd]
      · simp [hs, hd]
  | num q txt =>
    simp only [Backup.emitCell, Backup.holdsValue]
    by_cases hs : pyStrip (pyStr (Cell.num q txt)) = []
    · simp [hs]
    · by_cases hd : Backup.is_date_like (Cell.num q txt) = true
      · simp [hs, hd]
      · simp [hs, hd]
  | str s0 =>
    simp only [Backup.emitCell, Backup.holdsValue]
    by_cases hs : pyStrip (pyStr (Cell.str s0)) = []
    · simp [hs]
    · by_cases hd : Backup.is_date_like (Cell.str s0) = true
      · simp [hs, hd]
      · simp [hs, hd]

theorem mem_emitCell {fname : List Char} {sec metric : Option (List Char)} {d : PDate}
    {v : Cell} {rec : Backup.Record}
    (h : rec ∈ Backup.emitCell fname sec metric d v) :
    rec.is_total = false ∧ rec.date = some d ∧ rec.sect = sec ∧
      rec.metric_label = metric := by
  rw [emitCell_eq] at h
  split at h
  · rcases List.mem_singleton.mp h with rfl
    exact ⟨rfl, rfl, rfl, rfl⟩
  · simp at h

theorem mem_totPart {fname : List Char} {sec metric : Option (List Char)}
    {totalC : Option Nat} {row : List Cell} {rec : Backup.Record}
    (h : rec ∈ Backup.totPart fname sec metric totalC row) :
    rec.is_total = true ∧ rec.date = none ∧ rec.sect = sec ∧
      rec.metric_label = metric := by
  cases totalC with
  | none => simp [Backup.totPart] at h
  | some tc =>
    simp only [Backup.totPart] at h
    split at h
    · cases hv : getCell row tc with
      | empty => rw [hv] at h; simp at h
      | date dd =>
        rw [hv] at h
        dsimp only at h
        by_cases hs : pyStrip (pyStr (Cell.date dd)) = []
        · rw [if_pos hs] at h
          simp at h
        · rw [if_neg hs] at h
          have he := List.mem_singleton.mp h
          rw [he]
          exact ⟨rfl, rfl, rfl, rfl⟩
      | num q txt =>
        rw [hv] at h
        dsimp only at h
        by_cases hs : pyStrip (pyStr (Cell.num q txt)) = []
        · rw [if_pos hs] at h
          simp at h
        · rw [if_neg hs] at h
          have he := List.mem_singleton.mp h
          rw [he]
          exact ⟨rfl, rfl, rfl, rfl⟩
      | str s0 =>
        rw [hv] at h
        dsimp only at h
        by_cases hs : pyStrip (pyStr (Cell.str s0)) = []
        · rw [if_pos hs] at h
          simp at h
        · rw [if_neg hs] at h
          have he := List.mem_singleton.mp h
          rw [he]
          exact ⟨rfl, rfl, rfl, rfl⟩
    · simp at h

theorem totPart_of_nonEmpty {fname : List Char} {sec metric : Option (List Char)}
    {row : List Cell} {tc : Nat}
    (h : Backup.totNonEmpty (getCell row tc) = true) :
    Backup.totPart fname sec metric (some tc) row =
      [{ source_file := fname, sect := sec, metric_label := metric, date := none,
         value_raw := pyStrip (pyStr (getCell row tc)),
         value_num := (Backup.parse_number (pyStrip (pyStr (getCell row tc)))).1,
         is_percent := (Backup.parse_number (pyStrip (pyStr (getCell row tc)))).2,
         is_total := true }] := by
  have hlt : tc < row.length := by
    by_contra hc
    push_neg at hc
    rw [getCell, List.getD_eq_default _ _ hc] at h
    simp [Backup.totNonEmpty] at h
  simp only [Backup.totPart, if_pos hlt]
  cases hv : getCell row tc with
  | empty => rw [hv] at h; simp [Backup.totNonEmpty] at h
  | date dd =>
    rw [hv] at h
    simp only [Backup.totNonEmpty, decide_eq_true_eq] at h
    dsimp only
    rw [if_neg h]
  | num q txt =>
    rw [hv] at h
    simp only [Backup.totNonEmpty, decide_eq_true_eq] at h
    dsimp only
    rw [if_neg h]
  | str s0 =>
    rw [hv] at h
    simp only [Backup.totNonEmpty, decide_eq_true_eq] at h
    dsimp only
    rw [if_neg h]

theorem totPart_length_le (fname : List Char) (sec metric : Option (List Char))
    (totalC : Option Nat) (row : List Cell) :
    (Backup.totPart fname sec metric totalC row).length ≤ 1 := by
  cases totalC with
  | none => simp [Backup.totPart]
  | some tc =>
    simp only [Backup.totPart]
    split
    · cases getCell row tc with
      | empty => simp
      | date dd => dsimp only; split <;> simp
      | num q txt => dsimp only; split <;> simp
      | str s0 => dsimp only; split <;> simp
    · simp

theorem daily_dates (fname : List Char) (sec metric : Option (List Char))
    (c2d : List (Nat × PDate)) (row : List Cell) :
    ((c2d.flatMap (fun cd => Backup.emitCell fname sec metric cd.2 (getCell row cd.1))).map
        (fun rec => rec.date))
      = (c2d.filter (fun cd => Backup.holdsValue (getCell row cd.1))).map
          (fun cd => some cd.2) := by
  induction c2d with
  | nil => rfl
  | cons cd rest ih =>
    rw [List.flatMap_cons, List.map_append, ih, List.filter_cons]
    by_cases hv : Backup.holdsValue (getCell row cd.1)
    · rw [emitCell_eq, if_pos hv]
      simp [hv]
    · rw [emitCell_eq, if_neg hv]
      simp [hv]

theorem daily_not_total {fname : List Char} {sec metric : Option (List Char)}
    {c2d : List (Nat × PDate)} {row : List Cell} {rec : Backup.Record}
    (h : rec ∈ c2d.flatMap
      (fun cd => Backup.emitCell fname sec metric cd.2 (getCell row cd.1))) :
    rec.is_total = false := by
  rcases List.mem_flatMap.mp h with ⟨cd, _, hm⟩
  exact (mem_emitCell hm).1

/-- C2: a row below the header emits exactly one dated record per mapped
date column whose cell holds a value (present, non-blank, not itself
date-like), in column order, plus at most one totals record, which always
has a null date and `is_total = true`. -/
theorem C2_row_emission (fname : List Char) (firstC : Nat) (c2d : List (Nat × PDate))
    (totalC : Option Nat) (sec : Option (List Char)) (row : List Cell) :
    (((Backup.processRow fname firstC c2d totalC sec row).2.filter
        (fun rec => !rec.is_total)).map (fun rec => rec.date))
      = (c2d.filter (fun cd => Backup.holdsValue (getCell row cd.1))).map
          (fun cd => some cd.2) ∧
    ((Backup.processRow fname firstC c2d totalC sec row).2.filter
        (fun rec => rec.is_total)).length ≤ 1 ∧
    ∀ rec ∈ (Backup.processRow fname firstC c2d totalC sec row).2,
      rec.is_total = true → rec.date = none := by
  refine ⟨?_, ?_, ?_⟩
  · simp only [Backup.processRow, List.filter_append]
    have h1 : ((c2d.flatMap (fun cd =>
        Backup.emitCell fname (Backup.sectionAfter firstC sec row)
          (Backup.metricOf firstC row) cd.2 (getCell row cd.1))).filter
        (fun rec => !rec.is_total))
        = c2d.flatMap (fun cd =>
            Backup.emitCell fname (Backup.sectionAfter firstC sec row)
              (Backup.metricOf firstC row) cd.2 (getCell row cd.1)) := by
      rw [List.filter_eq_self]
      intro rec hrec
      rw [daily_not_total hrec]
      rfl
    have h2 : ((Backup.totPart fname (Backup.sectionAfter firstC sec row)
        (Backup.metricOf firstC row) totalC row).filter (fun rec => !rec.is_total))
        = [] := by
      rw [List.filter_eq_nil_iff]
      intro rec hrec
      rw [(mem_totPart hrec).1]
      simp
    rw [h1, h2, List.append_nil]
    exact daily_dates fname _ _ c2d row
  · simp only [Backup.processRow, List.filter_append]
    have h1 : ((c2d.flatMap (fun cd =>
        Backup.emitCell fname (Backup.sectionAfter firstC sec row)
          (Backup.metricOf firstC row) cd.2 (getCell row cd.1))).filter
        (fun rec => rec.is_total)) = [] := by
      rw [List.filter_eq_nil_iff]
      intro rec hrec
      rw [daily_not_total hrec]
      simp
    rw [h1, List.nil_append]
    exact Nat.le_trans (List.length_filter_le _ _) (totPart_length_le fname _ _ totalC row)
  · intro rec hrec htot
    simp only [Backup.processRow] at hrec
    rcases List.mem_append.mp hrec with hd | ht
    · rw [daily_not_total hd] at htot
      simp at htot
    · exact (mem_totPart ht).2.1

theorem C2_row_emission_witness :
    (((Backup.processRow "f.csv".data 1 c2dC2 (some 3) none rowC2).2.filter
        (fun rec => !rec.is_total)).map (fun rec => rec.date))
      = (c2dC2.filter (fun cd => Backup.holdsValue (getCell rowC2 cd.1))).map
          (fun cd => some cd.2) ∧
    ((Backup.processRow "f.csv".data 1 c2dC2 (some 3) none rowC2).2.filter
        (fun rec => rec.is_total)).length ≤ 1 :=
  ⟨(C2_row_emission "f.csv".data 1 c2dC2 (some 3) none rowC2).1,
   (C2_row_emission "f.csv".data 1 c2dC2 (some 3) none rowC2).2.1⟩

/-- C6: when a totals column was located and the row's cell there is
non-empty, the row emits exactly one extra record with a null date and
`is_total = true`, however many dated cells it also has, and every record
of the row (dated or total) carries the same section and metric context. -/
theorem C6_total_emission (fname : List Char) (firstC : Nat) (c2d : List (Nat × PDate))
    (tc : Nat) (sec : Option (List Char)) (row : List Cell)
    (h : Backup.totNonEmpty (getCell row tc) = true) :
    ((Backup.processRow fname firstC c2d (some tc) sec row).2.filter
        (fun rec => rec.is_total))
      = [{ source_file := fname, sect := Backup.sectionAfter firstC sec row,
           metric_label := Backup.metricOf firstC row, date := none,
           value_raw := pyStrip (pyStr (getCell row tc)),
           value_num := (Backup.parse_number (pyStrip (pyStr (getCell row tc)))).1,
           is_percent := (Backup.parse_number (pyStrip (pyStr (getCell row tc)))).2,
           is_total := true }] ∧
    ∀ rec ∈ (Backup.processRow fname firstC c2d (some tc) sec row).2,
      rec.sect = Backup.sectionAfter firstC sec row ∧
      rec.metric_label = Backup.metricOf firstC row := by
  constructor
  · simp only [Backup.processRow, List.filter_append]
    have h1 : ((c2d.flatMap (fun cd =>
        Backup.emitCell fname (Backup.sectionAfter firstC sec row)
          (Backup.metricOf firstC row) cd.2 (getCell row cd.1))).filter
        (fun rec => rec.is_total)) = [] := by
      rw [List.filter_eq_nil_iff]
      intro rec hrec
      rw [daily_not_total hrec]
      simp
    rw [h1, List.nil_append, totPart_of_nonEmpty h]
    rfl
  · intro rec hrec
    simp only [Backup.processRow] at hrec
    rcases List.mem_append.mp hrec with hd | ht
    · rcases List.mem_flatMap.mp hd with ⟨cd, _, hm⟩
      exact ⟨(mem_emitCell hm).2.2.1, (mem_emitCell hm).2.2.2⟩
    · exact ⟨(mem_totPart ht).2.2.1, (mem_totPart ht).2.2.2⟩

theorem C6_total_emission_witness :
    ((Backup.processRow "f.csv".data 1 c2dC6 (some 3) none rowC6).2.filter
        (fun rec => rec.is_total))
      = [{ source_file := "f.csv".data, sect := Backup.sectionAfter 1 none rowC6,
           metric_label := Backup.metricOf 1 rowC6, date := none,
           value_raw := pyStrip (pyStr (getCell rowC6 3)),
           value_num := (Backup.parse_number (pyStrip (pyStr (getCell rowC6 3)))).1,
           is_percent := (Backup.parse_number (pyStrip (pyStr (getCell rowC6 3)))).2,
           is_total := true }] :=
  (C6_total_emission "f.csv".data 1 c2dC6 3 none rowC6 (by decide)).1

theorem sectionAfter_of_syn {firstC : Nat} {row : List Cell} {canon : List Char}
    (h : Backup.labelSyn firstC row = some canon) :
    ∀ sec, Backup.sectionAfter firstC sec row = some canon := by
  intro sec
  rw [Backup.labelSyn] at h
  rcases Option.bind_eq_some.mp h with ⟨lab, hlab, hsyn⟩
  simp [Backup.sectionAfter, hlab, hsyn]

theorem sectionAfter_of_none {firstC : Nat} {row : List Cell}
    (h : Backup.labelSyn firstC row = none) :
    ∀ sec, Backup.sectionAfter firstC sec row = sec := by
  intro sec
  rw [Backup.labelSyn] at h
  cases hlab : Backup.rowLabel firstC row with
  | none => simp [Backup.sectionAfter, hlab]
  | some lab =>
    rw [hlab] at h
    simp only [Option.some_bind] at h
    simp [Backup.sectionAfter, hlab, h]

theorem processRow_sect {fname : List Char} {firstC : Nat} {c2d : List (Nat × PDate)}
    {totalC : Option Nat} {sec : Option (List Char)} {row : List Cell}
    {rec : Backup.Record}
    (h : rec ∈ (Backup.processRow fname firstC c2d totalC sec row).2) :
    rec.sect = Backup.sectionAfter firstC sec row := by
  simp only [Backup.processRow] at h
  rcases List.mem_append.mp h with hd | ht
  · rcases List.mem_flatMap.mp hd with ⟨cd, _, hm⟩
    exact (mem_emitCell hm).2.2.1
  · exact (mem_totPart ht).2.2.1

theorem normalize_file_ok {fname suffix : List Char} {grid : List (List Cell)}
    {recs : List Backup.Record}
    (h : Backup.normalize_file fname suffix grid = Except.ok recs) :
    ∃ r f l t, Backup.find_date_header_row grid = some (r, f, l, t) ∧
      recs = Backup.processRows fname f (Backup.buildCol2Date (grid.getD r []) f l) t
        none (grid.drop (r + 1)) := by
  simp only [Backup.normalize_file] at h
  split at h
  · cases hfind : Backup.find_date_header_row grid with
    | none => rw [hfind] at h; simp at h
    | some x =>
      obtain ⟨r, f, l, t⟩ := x
      rw [hfind] at h
      dsimp only at h
      exact ⟨r, f, l, t, rfl, (Except.ok.inj h).symm⟩
  · simp at h

/-- C5: the current-section state is set to the canonical value exactly when
the row's label is a known synonym, is left unchanged otherwise, persists
across subsequent rows without a matching label (so data rows inherit the
preceding title row's section), and each file's processing starts from the
empty section state, with no carryover between files. -/
theorem C5_section_state :
    (∀ (fname : List Char) (firstC : Nat) (c2d : List (Nat × PDate))
        (totalC : Option Nat) (sec : Option (List Char)) (row : List Cell)
        (canon : List Char),
      Backup.labelSyn firstC row = some canon →
        (Backup.processRow fname firstC c2d totalC sec row).1 = some canon) ∧
    (∀ (fname : List Char) (firstC : Nat) (c2d : List (Nat × PDate))
        (totalC : Option Nat) (sec : Option (List Char)) (row : List Cell),
      Backup.labelSyn firstC row = none →
        (Backup.processRow fname firstC c2d totalC sec row).1 = sec) ∧
    (∀ (fname : List Char) (firstC : Nat) (c2d : List (Nat × PDate))
        (totalC : Option Nat) (sec : Option (List Char)) (rows : List (List Cell)),
      (∀ row ∈ rows, Backup.labelSyn firstC row = none) →
        ∀ rec ∈ Backup.processRows fname firstC c2d totalC sec rows,
          rec.sect = sec) ∧
    (∀ (fname suffix : List Char) (grid : List (List Cell)) (r f l : Nat)
        (t : Option Nat),
      supportedSuffix suffix = true →
      Backup.find_date_header_row grid = some (r, f, l, t) →
        Backup.normalize_file fname suffix grid =
          Except.ok (Backup.processRows fname f
            (Backup.buildCol2Date (grid.getD r []) f l) t none (grid.drop (r + 1)))) := by
  refine ⟨?_, ?_, ?_, ?_⟩
  · intro fname firstC c2d totalC sec row canon h
    exact sectionAfter_of_syn h sec
  · intro fname firstC c2d totalC sec row h
    exact sectionAfter_of_none h sec
  · intro fname firstC c2d totalC sec rows
    induction rows generalizing sec with
    | nil => intro _ rec hrec; simp [Backup.processRows] at hrec
    | cons row rest ih =>
      intro h rec hrec
      simp only [Backup.processRows] at hrec
      rcases List.mem_append.mp hrec with h1 | h2
      · rw [processRow_sect h1]
        exact sectionAfter_of_none (h row (List.mem_cons_self row rest)) sec
      · have hst : (Backup.processRow fname firstC c2d totalC sec row).1 = sec :=
          sectionAfter_of_none (h row (List.mem_cons_self row rest)) sec
        rw [hst] at h2
        exact ih sec (fun r hr => h r (List.mem_cons_of_mem _ hr)) rec h2
  · intro fname suffix grid r f l t hs hf
    simp only [Backup.normalize_file, hs, if_true, hf]

theorem C5_section_state_witness :
    (Backup.processRow "f.csv".data 1 [] none none rowTitleC5).1
      = some "RESTAURANT".data ∧
    (Backup.processRow "f.csv".data 1 [] none (some "RESTAURANT".data) rowDataC5).1
      = some "RESTAURANT".data :=
  ⟨C5_section_state.1 "f.csv".data 1 [] none none rowTitleC5 "RESTAURANT".data (by decide),
   C5_section_state.2.1 "f.csv".data 1 [] none (some "RESTAURANT".data) rowDataC5
     (by decide)⟩

/-- C7 counterexample: with two non-empty string labels left of the date
span, the code's label (and hence the metric label it classifies with) is
the right-most one, not the left-most one the claim asserts. -/
theorem C7_leftmost_label_cex :
    Backup.rowLabel 2 rowC7 = some "B".data ∧
    specLeftmostLabel 2 rowC7 = some "A".data ∧
    Backup.rowLabel 2 rowC7 ≠ specLeftmostLabel 2 rowC7 ∧
    Backup.metricOf 2 rowC7 = some "B".data :=
  ⟨by decide, by decide, by decide, by decide⟩

theorem rowLabel_succ (n : Nat) (row : List Cell) :
    Backup.rowLabel (n + 1) row =
      match getCell row n with
      | Cell.str v => if pyStrip v = [] then Backup.rowLabel n row else some (pyStrip v)
      | _ => Backup.rowLabel n row := by
  simp only [Backup.rowLabel]
  rw [List.range_succ, List.foldl_append, List.foldl_cons, List.foldl_nil]

theorem lastLabelSpec_succ_of_blank (n : Nat) (row : List Cell) (lab : List Char)
    (hstep : ∀ w, getCell row n = Cell.str w → pyStrip w = []) :
    lastLabelSpec n row lab ↔ lastLabelSpec (n + 1) row lab := by
  constructor
  · rintro ⟨c, hcn, hex, hne, hall⟩
    refine ⟨c, by omega, hex, hne, ?_⟩
    intro j hj1 hj2 w hw
    rcases Nat.lt_succ_iff_lt_or_eq.mp hj2 with hj | rfl
    · exact hall j hj1 hj w hw
    · exact hstep w hw
  · rintro ⟨c, hcn1, hex, hne, hall⟩
    have hcn : c < n := by
      rcases Nat.lt_succ_iff_lt_or_eq.mp hcn1 with hlt | rfl
      · exact hlt
      · rcases hex with ⟨v, hv1, hv2⟩
        exact absurd (by rw [← hv2]; exact hstep v hv1) hne
    exact ⟨c, hcn, hex, hne, fun j hj1 hj2 w hw => hall j hj1 (by omega) w hw⟩

/-- C7 amended: the label used for section/metric classification is the
trimmed text of the last (right-most) non-blank string cell among the
columns to the left of the date span. -/
theorem C7_label_rule_amended (firstC : Nat) (row : List Cell) (lab : List Char) :
    Backup.rowLabel firstC row = some lab ↔ lastLabelSpec firstC row lab := by
  induction firstC with
  | zero =>
    constructor
    · intro h
      simp [Backup.rowLabel, List.range_zero] at h
    · rintro ⟨c, hc, _⟩
      omega
  | succ n ih =>
    rw [rowLabel_succ]
    cases hc : getCell row n with
    | empty =>
      rw [ih]
      exact lastLabelSpec_succ_of_blank n row lab
        (fun w hw => by rw [hc] at hw; exact absurd hw (by simp))
    | date dd =>
      rw [ih]
      exact lastLabelSpec_succ_of_blank n row lab
        (fun w hw => by rw [hc] at hw; exact absurd hw (by simp))
    | num q txt =>
      rw [ih]
      exact lastLabelSpec_succ_of_blank n row lab
        (fun w hw => by rw [hc] at hw; exact absurd hw (by simp))
    | str v =>
      dsimp only
      by_cases hv : pyStrip v = []
      · rw [if_pos hv, ih]
        exact lastLabelSpec_succ_of_blank n row lab
          (fun w hw => by
            rw [hc] at hw
            rw [← Cell.str.inj hw]
            exact hv)
      · rw [if_neg hv]
        constructor
        · intro h
          have he := Option.some.inj h
          refine ⟨n, by omega, ⟨v, hc, he⟩, ?_, ?_⟩
          · rw [← he]; exact hv
          · intro j hj1 hj2 w hw; omega
        · rintro ⟨c, hcn1, ⟨v', hv'1, hv'2⟩, hne, hall⟩
          rcases Nat.lt_succ_iff_lt_or_eq.mp hcn1 with hlt | rfl
          · exact absurd (hall n hlt (by omega) v hc) hv
          · rw [hc] at hv'1
            rw [← Cell.str.inj hv'1] at hv'2
            rw [hv'2]

theorem C7_label_rule_amended_witness :
    Backup.rowLabel 2 rowC7 = some "B".data :=
  (C7_label_rule_amended 2 rowC7 "B".data).mpr
    ⟨1, by omega, ⟨"B".data, by decide, by decide⟩, by decide,
     fun j hj1 hj2 w hw => absurd (by omega : (1 : Nat) < 1) (by omega)⟩

theorem mem_processRows_inv (fname : List Char) (firstC : Nat)
    (c2d : List (Nat × PDate)) (totalC : Option Nat) :
    ∀ rows sec rec, rec ∈ Backup.processRows fname firstC c2d totalC sec rows →
      (rec.date = none ↔ rec.is_total = true) ∧
      (rec.is_total = false → ∃ cd ∈ c2d, rec.date = some cd.2) := by
  intro rows
  induction rows with
  | nil => intro sec rec h; simp [Backup.processRows] at h
  | cons row rest ih =>
    intro sec rec h
    simp only [Backup.processRows] at h
    rcases List.mem_append.mp h with h1 | h2
    · simp only [Backup.processRow] at h1
      rcases List.mem_append.mp h1 with hd | ht
      · rcases List.mem_flatMap.mp hd with ⟨cd, hcd, hm⟩
        obtain ⟨ht0, hd0, _, _⟩ := mem_emitCell hm
        constructor
        · rw [ht0, hd0]; simp
        · intro _; exact ⟨cd, hcd, hd0⟩
      · obtain ⟨ht0, hd0, _, _⟩ := mem_totPart ht
        constructor
        · rw [ht0, hd0]; simp
        · intro hfalse; rw [ht0] at hfalse; simp at hfalse
    · exact ih _ rec h2

theorem mem_buildCol2Date {hdr : List Cell} {f l : Nat} {cd : Nat × PDate}
    (h : cd ∈ Backup.buildCol2Date hdr f l) :
    Backup.parse_date (getCell hdr cd.1) = some cd.2 := by
  simp only [Backup.buildCol2Date] at h
  rcases List.mem_filterMap.mp h with ⟨c, _, hc⟩
  rcases Option.map_eq_some'.mp hc with ⟨d, hd, he⟩
  rw [← he]
  exact hd

/-- C9: in every record `normalize_file` emits, the date is null exactly
when the record is a totals record; every dated record's date comes from
the column-to-date map, and that map holds only dates that `parse_date`
produced. -/
theorem C9_date_null_iff_total :
    (∀ (fname suffix : List Char) (grid : List (List Cell))
        (recs : List Backup.Record),
      Backup.normalize_file fname suffix grid = Except.ok recs →
        ∀ rec ∈ recs,
          (rec.date = none ↔ rec.is_total = true) ∧
          (rec.is_total = false →
            ∃ r f l t, Backup.find_date_header_row grid = some (r, f, l, t) ∧
              ∃ cd ∈ Backup.buildCol2Date (grid.getD r []) f l,
                rec.date = some cd.2)) ∧
    (∀ (hdr : List Cell) (f l : Nat), ∀ cd ∈ Backup.buildCol2Date hdr f l,
      Backup.parse_date (getCell hdr cd.1) = some cd.2) := by
  constructor
  · intro fname suffix grid recs h rec hrec
    rcases normalize_file_ok h with ⟨r, f, l, t, hfind, hrecs⟩
    rw [hrecs] at hrec
    have hinv := mem_processRows_inv fname f _ t _ none rec hrec
    exact ⟨hinv.1, fun hft => ⟨r, f, l, t, hfind, hinv.2 hft⟩⟩
  · intro hdr f l cd hcd
    exact mem_buildCol2Date hcd

theorem C9_date_null_iff_total_witness :
    Backup.parse_date (getCell hdrC9 1) = some ⟨2025, 1, 1⟩ :=
  C9_date_null_iff_total.2 hdrC9 1 3 (1, ⟨2025, 1, 1⟩) (by decide)

/-- C10: `normalize_file` of `normalize_daily_reports.py` returns `None`
for every file passing the format and header checks (its emission logic is
absent), so that script's per-file loop can only ever collect `None`
frames — it never produces an output record. -/
theorem C10_normalize_returns_none :
    (∀ (fname suffix : List Char) (grid : List (List Cell)) (res : Option DF),
      Main.normalize_file fname suffix grid = Except.ok res → res = none) ∧
    (∀ (files : List (List Char × List Char × List (List Cell)))
        (frames : List (Option DF)),
      Main.pipelineFrames files = Except.ok frames → ∀ fr ∈ frames, fr = none) := by
  have key : ∀ (fname suffix : List Char) (grid : List (List Cell)) (res : Option DF),
      Main.normalize_file fname suffix grid = Except.ok res → res = none := by
    intro fname suffix grid res h
    simp only [Main.normalize_file] at h
    split at h
    · split at h
      · simp at h
      · exact (Except.ok.inj h).symm
    · simp at h
  refine ⟨key, ?_⟩
  intro files
  induction files with
  | nil =>
    intro frames h fr hfr
    simp only [Main.pipelineFrames, List.mapM_nil] at h
    rw [← Except.ok.inj h] at hfr
    simp at hfr
  | cons x xs ih =>
    intro frames h fr hfr
    simp only [Main.pipelineFrames, List.mapM_cons] at h
    cases hx : Main.normalize_file x.1 x.2.1 x.2.2 with
    | error e => rw [hx] at h; exact Except.noConfusion h
    | ok a =>
      rw [hx] at h
      cases hxs : List.mapM (fun f => Main.normalize_file f.1 f.2.1 f.2.2) xs with
      | error e => rw [hxs] at h; exact Except.noConfusion h
      | ok as =>
        rw [hxs] at h
        have hf : frames = a :: as := (Except.ok.inj h).symm
        subst hf
        rcases List.mem_cons.mp hfr with rfl | hmem
        · exact key x.1 x.2.1 x.2.2 fr hx
        · exact ih as hxs fr hmem

theorem C10_normalize_returns_none_witness :
    Main.normalize_file "r.csv".data ".csv".data gridC10 = Except.ok none ∧
    (none : Option DF) = none :=
  ⟨by rfl, C10_normalize_returns_none.1 "r.csv".data ".csv".data gridC10 none (by rfl)⟩

/-- C8: running the aggregation on an empty input set yields an empty
master table that still carries the full canonical column set, rather than
an error. -/
theorem C8_empty_batch :
    Backup.mainRun [] =
      Except.ok { cols := ["source_file".data, "section".data, "metric_label".data,
        "date".data, "value_raw".data, "value_num".data, "is_percent".data,
        "is_total".data], rows := ([] : List (List PVal)) } := by rfl
